import Mathlib

/-!
Verification development for the QueryOS search engine
(`utils/file_searcher.py`, `utils/loading_spinners.py`, `config/settings.py`).

Strings are modelled as `List Char` (`Str`); Python `str.lower` is
`Char.toLower` mapped over the list; Python's `in` substring test is
`List.IsInfix`, `startswith` is `List.IsPrefix`, `endswith` is
`List.IsSuffix`.  Relevance scores (Python floats built from the literals
15.0, 10.0, 8.0, 5.0, 3.0, 2.0, 1.0, 0.5, 0.1) are modelled as exact
rationals; the float threshold test `matches / pattern_len >= 0.8` of
`_similarity_match` is modelled by the exact comparison
`4 * pattern_len <= 5 * matches`, which agrees with the double-precision
computation for all name lengths arising in practice.

The filesystem visible to one `search_files` call is modelled as a list of
roots, each holding a tree of directories (`Dirs`) and files.  Each
directory carries a `readable` flag (`os.walk` with the default
`onerror=None` silently skips a directory whose listing fails) and each
entry a `present` flag (the `Path.exists()` re-check, which is `False`
when the entry vanished between listing and check).  `stat` information is
an `Option`: `none` models a failing `stat` call, which the source catches
and turns into a skipped scoring signal.
-/

namespace QueryOS

abbrev Str := List Char

def lowerS (s : Str) : Str := s.map Char.toLower

/-- Python `needle in hay` (substring containment). -/
def containsS (needle hay : Str) : Bool := decide (needle <:+: hay)

/-- Model of `FileSearcher._remove_duplicate_chars`, with the loop's `prev_char`
variable made into an explicit accumulator: the character is appended only
when it differs from the previous one, and `prev_char` is always updated. -/
def rdcA (prev : Option Char) : Str → Str
  | [] => []
  | c :: rest => if some c = prev then rdcA (some c) rest else c :: rdcA (some c) rest

def remove_duplicate_chars (text : Str) : Str := rdcA none text

/-- Number of positions where the two strings agree, Python
`sum(1 for a, b in zip(pattern, substring) if a == b)`. -/
def countEq (p w : Str) : Nat := (p.zip w).countP fun c => c.1 == c.2

/-- Model of `FileSearcher._similarity_match` at its sole call site
(`threshold=0.8`).  Python iterates `i in range(len(text) - pattern_len + 1)`;
that range is empty whenever the pattern is longer than the text, which the
`if` guard reproduces (the subtraction would otherwise truncate at 0).  The
float test `matches / pattern_len >= 0.8` is the exact comparison
`4 * pattern_len <= 5 * matches`. -/
def similarity_match (pat text : Str) : Bool :=
  if pat.length ≤ text.length then
    (List.range (text.length - pat.length + 1)).any fun i =>
      4 * pat.length ≤ 5 * countEq pat ((text.drop i).take pat.length)
  else false

/-- Model of `FileSearcher._fuzzy_match`: exact substring, then the deduplicated
pattern as substring, then (only for patterns longer than 3 characters)
windowed similarity. -/
def fuzzy_match (pat text : Str) : Bool :=
  let pl := lowerS pat
  let tl := lowerS text
  if containsS pl tl then true
  else if containsS (remove_duplicate_chars pl) tl then true
  else if 3 < pl.length then similarity_match pl tl
  else false

/-- Python `str.split()` restricted to the space character (the only
separator reaching it here: `_matches_criteria` splits only when the
pattern contains a space); empty fragments are dropped. -/
def splitWsA : Str → Str → List Str
  | [], cur => if cur = [] then [] else [cur.reverse]
  | c :: rest, cur =>
    if c = ' ' then
      (if cur = [] then splitWsA rest [] else cur.reverse :: splitWsA rest [])
    else splitWsA rest (c :: cur)

def splitWs (s : Str) : List Str := splitWsA s []

/-- Model of `FileSearcher._matches_criteria`. -/
def matches_criteria (filename pattern file_type : Str) (is_folder : Bool) : Bool :=
  let filename_lower := lowerS filename
  (if pattern ≠ [] then
    (if pattern.contains ' ' then
      (splitWs pattern).all fun kw => fuzzy_match kw filename_lower
     else fuzzy_match pattern filename_lower)
   else true)
  && (if file_type ≠ [] && !is_folder then
        decide (('.' :: file_type) <:+ filename_lower)
      else true)

/-! ## Data model: queries, entries, filesystem trees -/

/-- The `search_type` field of the parsed query: `'files'`, `'folders'` or `'both'`. -/
inductive SType : Type where
  | files | folders | both
deriving DecidableEq

/-- The fields of the `search_params` dict that `search_files` and
`_calculate_relevance` read. -/
structure Query where
  filename : Str
  file_type : Str
  search_type : SType
deriving DecidableEq

/-- Result of a successful `stat` call: the age in days computed by
`(time.time() - mtime) / (24 * 3600)`, and `st_size`. -/
structure Stat where
  daysOld : ℚ
  size : Nat
deriving DecidableEq

/-- A candidate result: the `Path` object together with what the scoring
pass later reads off it (`name`, `is_dir()`, `stat()`).  The filesystem is
fixed during one call, so this data is recorded at collection time. -/
structure Entry where
  pathStr : Str
  name : Str
  isDir : Bool
  stat : Option Stat
deriving DecidableEq

structure FSFile where
  name : Str
  present : Bool
  stat : Option Stat
deriving DecidableEq

/-- Sibling list of directories.  Each cell carries the directory's name,
its `Path.exists()` outcome, whether its listing succeeds (`readable`),
its stat data, its own subdirectory list, its files, and the remaining
siblings. -/
inductive Dirs : Type where
  | nil : Dirs
  | cons (name : Str) (present readable : Bool) (stat : Option Stat)
      (csubs : Dirs) (cfiles : List FSFile) (rest : Dirs) : Dirs
deriving DecidableEq

/-- A scan root handed to `_search_in_directory` (a drive such as `C:\`,
or any directory path). -/
structure Root where
  path : Str
  readable : Bool
  subdirs : Dirs
  files : List FSFile

/-- Constant `MAX_SEARCH_RESULTS` from `config/settings.py`. -/
def MAX_SEARCH_RESULTS : Nat := 50

/-- Constant `MAX_DISPLAY_RESULTS` from `config/settings.py`. -/
def MAX_DISPLAY_RESULTS : Nat := 20

/-! ## Directory exclusion -/

/-- The exclusion list of `_search_in_directory` line 193. -/
def excluded_full : List Str :=
  [("System Volume Information".toList), ("$RECYCLE.BIN".toList),
   ("Windows".toList), ("Program Files".toList), ("Program Files (x86)".toList),
   ("ProgramData".toList), ("AppData".toList)]

/-- The narrower exclusion list of the `'appdata' in directory.lower()`
special case, line 205. -/
def excluded_narrow : List Str :=
  [("System Volume Information".toList), ("$RECYCLE.BIN".toList)]

/-- Keep predicate of the first `dirs[:]` assignment:
`not d.startswith('.') and d not in excluded_full`. -/
def keepFull (nm : Str) : Bool :=
  !decide (nm.head? = some '.') && !(excluded_full.contains nm)

/-- Keep predicate of the second `dirs[:]` assignment. -/
def keepNarrow (nm : Str) : Bool :=
  !decide (nm.head? = some '.') && !(excluded_narrow.contains nm)

def filterD (p : Str → Bool) : Dirs → Dirs
  | .nil => .nil
  | .cons nm pres rd st cs cf rest =>
    if p nm then .cons nm pres rd st cs cf (filterD p rest) else filterD p rest

/-- The two consecutive in-place prunings of `dirs`: the full filter runs
unconditionally, and when the scan root's path contains `'appdata'` the
narrow filter is applied *to the already filtered list* — exactly as the
source does it. -/
def pruneD (appdata : Bool) (ds : Dirs) : Dirs :=
  let d1 := filterD keepFull ds
  if appdata then filterD keepNarrow d1 else d1

/-! ## Traversal -/

/-- Per-scan-root context: the lowercased pattern and file type, the
search type, and whether `'appdata' in directory.lower()` holds for the
scan root passed to `_search_in_directory`. -/
structure Ctx where
  pattern : Str
  file_type : Str
  search_type : SType
  appdata : Bool

/-- Python `Path(root) / name` for a directory result; `str()` of a Windows path
inserts a backslash unless the parent already ends with one. -/
def joinPath (dir nm : Str) : Str :=
  if dir.getLast? = some '\\' then dir ++ nm else dir ++ '\\' :: nm

def dirEntry (cur nm : Str) (st : Option Stat) : Entry :=
  ⟨joinPath cur nm, nm, true, st⟩

def fileEntry (cur nm : Str) (st : Option Stat) : Entry :=
  ⟨joinPath cur nm, nm, false, st⟩

/-- The folder loop of `_search_in_directory` (lines 177-190): every child
directory name is tested, an existing match is appended, and once the
accumulator reaches `MAX_SEARCH_RESULTS` the whole walk returns
(`Bool = true` signals that early return). -/
def collectDirsD (ctx : Ctx) (cur : Str) : Dirs → List Entry → List Entry × Bool
  | .nil, acc => (acc, false)
  | .cons nm pres _rd st _cs _cf rest, acc =>
    if matches_criteria nm ctx.pattern [] true && pres then
      let acc2 := acc ++ [dirEntry cur nm st]
      if MAX_SEARCH_RESULTS ≤ acc2.length then (acc2, true)
      else collectDirsD ctx cur rest acc2
    else collectDirsD ctx cur rest acc

/-- The file loop of `_search_in_directory` (lines 211-227). -/
def collectFilesD (ctx : Ctx) (cur : Str) : List FSFile → List Entry → List Entry × Bool
  | [], acc => (acc, false)
  | f :: rest, acc =>
    if matches_criteria f.name ctx.pattern ctx.file_type false && f.present then
      let acc2 := acc ++ [fileEntry cur f.name f.stat]
      if MAX_SEARCH_RESULTS ≤ acc2.length then (acc2, true)
      else collectFilesD ctx cur rest acc2
    else collectFilesD ctx cur rest acc

/-- Total number of `Dirs` constructors, used only to pick a fuel value
large enough that the fuel of the walk can never run out. -/
def dsize : Dirs → Nat
  | .nil => 1
  | .cons _ _ _ _ cs _ rest => 1 + dsize cs + dsize rest

mutual
/-- One `os.walk` step at a directory whose children are `subs`/`files`:
match folders against the *unpruned* child list, prune, match files, then
descend into the pruned children in order.  `fuel` only makes the
recursion structural; `search_in_directory` supplies more fuel than the
walk can consume, so the `0` case is unreachable there. -/
def walkNodeF : Nat → Ctx → Str → Dirs → List FSFile → List Entry → List Entry × Bool
  | 0, _, _, _, _, acc => (acc, false)
  | fuel + 1, ctx, cur, subs, files, acc =>
    let p1 := if ctx.search_type = SType.folders ∨ ctx.search_type = SType.both then
        collectDirsD ctx cur subs acc
      else (acc, false)
    if p1.2 then p1 else
    let pruned := pruneD ctx.appdata subs
    let p2 := if ctx.search_type = SType.files ∨ ctx.search_type = SType.both then
        collectFilesD ctx cur files p1.1
      else (p1.1, false)
    if p2.2 then p2 else
    walkChildrenF fuel ctx cur pruned p2.1

/-- Depth-first descent into the pruned children.  A child whose listing
fails contributes nothing (`os.walk` with `onerror=None` skips it) and the
walk continues with its siblings. -/
def walkChildrenF : Nat → Ctx → Str → Dirs → List Entry → List Entry × Bool
  | 0, _, _, _, acc => (acc, false)
  | _ + 1, _, _, .nil, acc => (acc, false)
  | fuel + 1, ctx, cur, .cons nm _pres rd _st csubs cfiles rest, acc =>
    let r := if rd then walkNodeF fuel ctx (joinPath cur nm) csubs cfiles acc
      else (acc, false)
    if r.2 then r else walkChildrenF fuel ctx cur rest r.1
end

def mkCtx (q : Query) (rootPath : Str) : Ctx :=
  ⟨lowerS q.filename, lowerS q.file_type, q.search_type,
   containsS ("appdata".toList) (lowerS rootPath)⟩

/-- Model of `FileSearcher._search_in_directory` on one scan root.  An unreadable
root yields nothing: the generator's first listing fails and, with
`onerror=None`, `os.walk` produces no tuples at all. -/
def search_in_directory (q : Query) (r : Root) (acc : List Entry) : List Entry × Bool :=
  if r.readable then
    walkNodeF (2 * dsize r.subdirs + 2) (mkCtx q r.path) r.path r.subdirs r.files acc
  else (acc, false)

/-- The drive loop of `search_files` (lines 55-69): each root is searched
into the shared accumulator and the loop breaks once
`MAX_SEARCH_RESULTS` entries are collected. -/
def searchLoop (q : Query) : List Root → List Entry → List Entry
  | [], acc => acc
  | r :: rest, acc =>
    let acc1 := (search_in_directory q r acc).1
    if MAX_SEARCH_RESULTS ≤ acc1.length then acc1 else searchLoop q rest acc1

def searchCollect (q : Query) (roots : List Root) : List Entry :=
  searchLoop q roots []

/-! ## Relevance scoring -/

/-- The configuration `_calculate_relevance` reads: `PRIORITY_PATHS` and
the `'code'` / `'documents'` extension lists of `FILE_TYPES`. -/
structure SearchCfg where
  priority_paths : List Str
  codeTypes : List Str
  docTypes : List Str

/-- List `FILE_TYPES['code']` from `config/settings.py`. -/
def codeTypesDefault : List Str :=
  [(".py".toList), (".pyw".toList), (".ipynb".toList), (".js".toList),
   (".ts".toList), (".jsx".toList), (".tsx".toList), (".html".toList),
   (".htm".toList), (".css".toList), (".scss".toList), (".sass".toList),
   (".less".toList), (".java".toList), (".class".toList), (".jar".toList),
   (".cpp".toList), (".cc".toList), (".cxx".toList), (".c".toList),
   (".h".toList), (".hpp".toList), (".php".toList), (".rb".toList),
   (".go".toList), (".rs".toList), (".swift".toList), (".kt".toList),
   (".kts".toList), (".cs".toList), (".vb".toList), (".pl".toList),
   (".sh".toList), (".bat".toList), (".ps1".toList), (".r".toList),
   (".m".toList), (".scala".toList), (".sql".toList)]

/-- List `FILE_TYPES['documents']` from `config/settings.py`. -/
def docTypesDefault : List Str :=
  [(".txt".toList), (".pdf".toList), (".docx".toList), (".doc".toList),
   (".rtf".toList), (".odt".toList), (".ppt".toList), (".pptx".toList),
   (".odp".toList), (".md".toList), (".tex".toList)]

/-- Index of the last `'.'` in a name, Python `name.rfind('.')`. -/
def lastDotIdx : Str → Option Nat
  | [] => none
  | c :: rest =>
    match lastDotIdx rest with
    | some i => some (i + 1)
    | none => if c = '.' then some 0 else none

/-- Model of `pathlib.PurePath.suffix`: the part of the name from its last dot,
empty when there is no dot, the dot is the first character, or the dot is
the last character. -/
def suffixOf (nm : Str) : Str :=
  match lastDotIdx nm with
  | some i => if 0 < i ∧ i < nm.length - 1 then nm.drop i else []
  | none => []

/-- The kind branch of `_calculate_relevance` (lines 368-373):
`if search_type == 'folders' and is_folder: +15
elif search_type == 'files' and not is_folder: +10
elif is_folder: +8`. -/
def kindBonus (st : SType) (isDir : Bool) : ℚ :=
  if st = SType.folders ∧ isDir then 15
  else if st = SType.files ∧ isDir = false then 10
  else if isDir then 8
  else 0

/-- Exact filename match, line 376: `+10`. -/
def exactBonus (search_filename filename : Str) : ℚ :=
  if search_filename ≠ [] ∧ search_filename = filename then 10 else 0

/-- Partial filename match, lines 380-384: `+5`, plus `+2` when the name
starts with the pattern. -/
def partialBonus (search_filename filename : Str) : ℚ :=
  if search_filename ≠ [] ∧ containsS search_filename filename then
    5 + (if decide (search_filename <+: filename) then 2 else 0)
  else 0

/-- File-type match, line 387: `+3` for files whose lowercased name ends
with `.` + the query's file type. -/
def extBonus (q : Query) (filename : Str) (isDir : Bool) : ℚ :=
  if isDir = false ∧ q.file_type ≠ [] ∧ decide (('.' :: q.file_type) <:+ filename)
  then 3 else 0

/-- Priority-location bonus, lines 391-395: `+2` once if the lowercased
path string starts with one of the lowercased priority paths. -/
def priorityBonus (cfg : SearchCfg) (pathStr : Str) : ℚ :=
  if cfg.priority_paths.any (fun pp => decide (lowerS pp <+: lowerS pathStr))
  then 2 else 0

/-- Recency tiers, lines 398-408; a failing `stat` contributes nothing. -/
def recencyBonus : Option Stat → ℚ
  | none => 0
  | some s =>
    if s.daysOld < 1 then 2
    else if s.daysOld < 7 then 1
    else if s.daysOld < 30 then 1 / 2
    else 0

/-- Size heuristic, lines 411-426: files only; code extensions get `+0.5`
for sizes strictly between 1000 and 100000 bytes, document extensions a
flat `+0.1`; a failing `stat` contributes nothing. -/
def sizeBonus (cfg : SearchCfg) (nm : Str) (isDir : Bool) : Option Stat → ℚ
  | none => 0
  | some s =>
    if isDir then 0
    else
      let ext := lowerS (suffixOf nm)
      if cfg.codeTypes.contains ext then
        (if 1000 < s.size ∧ s.size < 100000 then 1 / 2 else 0)
      else if cfg.docTypes.contains ext then 1 / 10
      else 0

/-- Model of `FileSearcher._calculate_relevance`: the sum of the signal bonuses in
source order. -/
def calculate_relevance (cfg : SearchCfg) (q : Query) (e : Entry) : ℚ :=
  let filename := lowerS e.name
  let search_filename := lowerS q.filename
  kindBonus q.search_type e.isDir
    + exactBonus search_filename filename
    + partialBonus search_filename filename
    + extBonus q filename e.isDir
    + priorityBonus cfg e.pathStr
    + recencyBonus e.stat
    + sizeBonus cfg e.name e.isDir e.stat

/-! ## Sorting and the public operation -/

/-- Insertion step of a stable descending sort by score: an element moves
past exactly the elements of strictly greater score, so equal scores keep
their discovery order — the behaviour of Python's stable
`list.sort(key=..., reverse=True)`. -/
def insertDesc (key : Entry → ℚ) (e : Entry) : List Entry → List Entry
  | [] => [e]
  | x :: xs => if key e < key x then x :: insertDesc key e xs else e :: x :: xs

def sortDesc (key : Entry → ℚ) : List Entry → List Entry
  | [] => []
  | x :: xs => insertDesc key x (sortDesc key xs)

/-- Model of `FileSearcher.search_files`: collect over all roots, sort by relevance
descending (sorting an empty list is the identity, matching the
`if results:` guard), and truncate to `MAX_DISPLAY_RESULTS`. -/
def search_files (cfg : SearchCfg) (q : Query) (roots : List Root) : List Entry :=
  (sortDesc (calculate_relevance cfg q) (searchCollect q roots)).take MAX_DISPLAY_RESULTS

/-! ## Auxiliary observation functions used by the statements -/

/-- Whether a string contains two equal adjacent characters (a run of
consecutive repeated characters). -/
def hasAdjacentDup : Str → Bool
  | [] => false
  | [_] => false
  | a :: b :: rest => a == b || hasAdjacentDup (b :: rest)

/-- Empty the contents of every directory (at any depth) whose name
satisfies `bad`, keeping its name, flags and stat so that it is still
listed — and hence still matchable as a folder result — in its parent.
`walk = walk ∘ scrubBy bad` states that such directories are never
descended into. -/
def scrubBy (bad : Str → Bool) : Dirs → Dirs
  | .nil => .nil
  | .cons nm pres rd st cs cf rest =>
    if bad nm then .cons nm pres rd st .nil [] (scrubBy bad rest)
    else .cons nm pres rd st (scrubBy bad cs) cf (scrubBy bad rest)

/-- Name begins with a dot. -/
def startsDot (nm : Str) : Bool := decide (nm.head? = some '.')

/-- Name belongs to the fixed exclusion set. -/
def isExcludedName (nm : Str) : Bool := excluded_full.contains nm

/-- No cell of the sibling list (at top level) has a `bad` name. -/
def goodTops (bad : Str → Bool) : Dirs → Bool
  | .nil => true
  | .cons nm _ _ _ _ _ rest => !bad nm && goodTops bad rest

/-! ## Signal decomposition of the score (for the monotonicity claim) -/

/-- The signal vector of one entry against one query: which boolean
signals fire and the values of the two tiered signals. -/
structure Signals where
  kindB : ℚ
  exactS : Bool
  substrS : Bool
  startS : Bool
  extS : Bool
  prioS : Bool
  recB : ℚ
  sizeB : ℚ
deriving DecidableEq

/-- The score as a pure additive function of the signal vector.  The `+2`
start-of-name bonus fires only together with the substring signal, as in
the nested `if` of the source. -/
def scoreOf (s : Signals) : ℚ :=
  s.kindB + (if s.exactS then 10 else 0) + (if s.substrS then 5 else 0)
    + (if s.substrS ∧ s.startS then 2 else 0) + (if s.extS then 3 else 0)
    + (if s.prioS then 2 else 0) + s.recB + s.sizeB

/-- Signals extracted from an entry exactly as `_calculate_relevance`
tests them. -/
def extract (cfg : SearchCfg) (q : Query) (e : Entry) : Signals :=
  let filename := lowerS e.name
  let search_filename := lowerS q.filename
  { kindB := kindBonus q.search_type e.isDir
    exactS := decide (search_filename ≠ [] ∧ search_filename = filename)
    substrS := decide (search_filename ≠ []) && containsS search_filename filename
    startS := decide (search_filename <+: filename)
    extS := decide (e.isDir = false ∧ q.file_type ≠ []
      ∧ ('.' :: q.file_type) <:+ filename)
    prioS := cfg.priority_paths.any fun pp => decide (lowerS pp <+: lowerS e.pathStr)
    recB := recencyBonus e.stat
    sizeB := sizeBonus cfg e.name e.isDir e.stat }

/-! ## The progress reporter (`loading_spinners.py`)

Two threads share the spinner object: the caller and the reporter thread
running `spinner_task`.  The model records each thread's program counter,
the shared `busy` flag, whether the `join(timeout=0.5)` call fired its
timeout, and the sequence of writes to the status output. -/

namespace Spinner

/-- Program counter of the reporter thread inside `spinner_task`. -/
inductive RPC : Type where
  | checkBusy   -- about to test `while self.busy`
  | writeFrame  -- about to write the animation frame
  | sleeping    -- inside `time.sleep(self.delay)`
  | writeClear  -- loop exited, about to write the clearing line
  | done        -- `spinner_task` returned
deriving DecidableEq

/-- Program counter of the calling thread around `stop()`. -/
inductive MPC : Type where
  | running    -- spinner started, caller has not called `stop()`
  | stopping   -- caller executed `self.busy = False`, now in `join`
  | afterStop  -- `stop()` returned
  | printed    -- caller performed its first print after `stop()`
deriving DecidableEq

/-- Observable output events on the status stream. -/
inductive Ev : Type where
  | frame | clear | userPrint
deriving DecidableEq

structure St where
  busy : Bool
  rpc : RPC
  mpc : MPC
  timedOut : Bool
  out : List Ev
deriving DecidableEq

/-- State right after `start()`: the flag is set and the reporter thread
is at the top of its loop. -/
def init : St := ⟨true, RPC.checkBusy, MPC.running, false, []⟩

/-- Interleaving semantics of `spinner_task` (lines 56-70) and `stop`
(lines 79-84).  `join(timeout=0.5)` returns either because the thread has
finished (`joinDone`) or because the timeout elapsed (`joinTimeout`) —
thread scheduling and sleep durations are not bounded, so the timeout
branch is always possible. -/
inductive Step : St → St → Prop where
  | checkBusyT : ∀ s, s.rpc = RPC.checkBusy → s.busy = true →
      Step s { s with rpc := RPC.writeFrame }
  | checkBusyF : ∀ s, s.rpc = RPC.checkBusy → s.busy = false →
      Step s { s with rpc := RPC.writeClear }
  | frame : ∀ s, s.rpc = RPC.writeFrame →
      Step s { s with rpc := RPC.sleeping, out := s.out ++ [Ev.frame] }
  | wake : ∀ s, s.rpc = RPC.sleeping →
      Step s { s with rpc := RPC.checkBusy }
  | clearW : ∀ s, s.rpc = RPC.writeClear →
      Step s { s with rpc := RPC.done, out := s.out ++ [Ev.clear] }
  | stopCall : ∀ s, s.mpc = MPC.running →
      Step s { s with mpc := MPC.stopping, busy := false }
  | joinDone : ∀ s, s.mpc = MPC.stopping → s.rpc = RPC.done →
      Step s { s with mpc := MPC.afterStop }
  | joinTimeout : ∀ s, s.mpc = MPC.stopping →
      Step s { s with mpc := MPC.afterStop, timedOut := true }
  | printAfter : ∀ s, s.mpc = MPC.afterStop →
      Step s { s with mpc := MPC.printed, out := s.out ++ [Ev.userPrint] }

/-- Reachability from the started state. -/
inductive Reach : St → Prop where
  | start : Reach init
  | next : ∀ {s t}, Reach s → Step s t → Reach t

end Spinner

/-! ## Concrete inputs used by the claim theorems and witnesses -/

def cfg0 : SearchCfg := ⟨[], codeTypesDefault, docTypesDefault⟩

/-- A scan root lying inside the per-user cache directory, with a child
`Windows` directory that contains a uniquely named file. -/
def winFiles1 : List FSFile := [⟨"uniquexyz.txt".toList, true, none⟩]

def appTree1 : Dirs :=
  Dirs.cons ("Windows".toList) true true none Dirs.nil winFiles1 Dirs.nil

def appRoot1 : Root := ⟨"c:\\users\\u\\appdata".toList, true, appTree1, []⟩

def q1 : Query := ⟨"uniquexyz".toList, [], SType.files⟩

/-- A root containing a hidden `.git` directory with a uniquely named file
inside. -/
def gitTree1 : Dirs :=
  Dirs.cons (".git".toList) true true none Dirs.nil
    [⟨"hiddenuniq.txt".toList, true, none⟩] Dirs.nil

def gitRoot1 : Root := ⟨"c:\\".toList, true, gitTree1, []⟩

def qGit : Query := ⟨"git".toList, [], SType.folders⟩

/-- A folder entry and a folders query with no other active signal. -/
def eFold : Entry := ⟨"c:\\zzz".toList, "zzz".toList, true, none⟩

def qFold : Query := ⟨"qqq".toList, [], SType.folders⟩

/-- A file entry and a files query. -/
def eFile : Entry := ⟨"c:\\zzz.txt".toList, "zzz.txt".toList, false, none⟩

def qFiles : Query := ⟨"qqq".toList, [], SType.files⟩

end QueryOS

open QueryOS

/-! ## Lemmas about duplicate-character collapsing -/

theorem rdcA_head_ne (l : Str) : ∀ c : Char, ((rdcA (some c) l).head? = some c) → False := by
  induction l with
  | nil => intro c h; simp [rdcA] at h
  | cons c' rest ih =>
    intro c h
    by_cases hc : some c' = some c
    · rw [rdcA, if_pos hc] at h
      have hcc : c' = c := by injection hc
      subst hcc
      exact ih c' h
    · rw [rdcA, if_neg hc] at h
      simp only [List.head?_cons, Option.some.injEq] at h
      exact hc (by rw [h])

theorem rdcA_noDup (l : Str) : ∀ prev : Option Char, hasAdjacentDup (rdcA prev l) = false := by
  induction l with
  | nil => intro prev; simp [rdcA, hasAdjacentDup]
  | cons c rest ih =>
    intro prev
    by_cases hc : some c = prev
    · rw [rdcA, if_pos hc]; exact ih (some c)
    · rw [rdcA, if_neg hc]
      rcases hX : rdcA (some c) rest with _ | ⟨d, t⟩
      · simp [hasAdjacentDup]
      · have hdc : (c == d) = false := by
          rcases h : c == d with _ | _
          · rfl
          · exfalso
            have hcd : c = d := beq_iff_eq.mp h
            exact rdcA_head_ne rest c (by rw [hX]; simp [hcd])
        have hrest : hasAdjacentDup (d :: t) = false := by rw [← hX]; exact ih (some c)
        simp [hasAdjacentDup, hdc, hrest]

theorem rdcA_fixed (m : Str) :
    ∀ prev : Option Char, hasAdjacentDup m = false →
    (∀ c : Char, m.head? = some c → prev ≠ some c) → rdcA prev m = m := by
  induction m with
  | nil => intro prev _ _; rfl
  | cons c rest ih =>
    intro prev hnd hhd
    have hne : ¬ some c = prev := fun h => hhd c rfl h.symm
    rw [rdcA, if_neg hne]
    rcases rest with _ | ⟨d, t⟩
    · rfl
    · have hcd : (c == d) = false ∧ hasAdjacentDup (d :: t) = false := by
        rw [hasAdjacentDup] at hnd
        constructor
        · rcases h : c == d with _ | _
          · rfl
          · rw [h] at hnd; simp at hnd
        · rcases h : hasAdjacentDup (d :: t) with _ | _
          · rfl
          · rw [h] at hnd; simp at hnd
      have : rdcA (some c) (d :: t) = d :: t := by
        apply ih (some c) hcd.2
        intro e he hce
        simp only [List.head?_cons, Option.some.injEq] at he
        have : c = e := by injection hce
        rw [← he] at this
        exact absurd (beq_iff_eq.mpr this) (by simp [hcd.1])
      rw [this]

/-! ## Characterisation of the similarity window scan -/

theorem similarity_match_iff (pat text : Str) :
    similarity_match pat text = true ↔
      ∃ i, i + pat.length ≤ text.length ∧
        4 * pat.length ≤ 5 * countEq pat ((text.drop i).take pat.length) := by
  unfold similarity_match
  by_cases h : pat.length ≤ text.length
  · rw [if_pos h]
    simp only [List.any_eq_true, List.mem_range, decide_eq_true_eq]
    constructor
    · rintro ⟨i, hi, hp⟩; exact ⟨i, by omega, hp⟩
    · rintro ⟨i, hi, hp⟩; exact ⟨i, by omega, hp⟩
  · rw [if_neg h]
    constructor
    · intro hF; exact absurd hF (by simp)
    · rintro ⟨i, hi, _⟩; omega

/-! ## Claim theorems -/

/-- C10: the duplicate-character collapsing of
`_remove_duplicate_chars` is idempotent, and its output never contains
two equal adjacent characters. -/
theorem C10_dedupe_idempotent (s : Str) :
    remove_duplicate_chars (remove_duplicate_chars s) = remove_duplicate_chars s
    ∧ hasAdjacentDup (remove_duplicate_chars s) = false := by
  refine ⟨?_, rdcA_noDup s none⟩
  exact rdcA_fixed (rdcA none s) none (rdcA_noDup s none) (fun c _ h => by cases h)

/-- C7: when the pattern has a run of consecutive repeated characters and
its collapsed form is (case-insensitively) a substring of the candidate
name, `_fuzzy_match` succeeds even though the raw pattern is not a
substring. -/
theorem C7_dedupe_substring_matches (p n : Str)
    (_hdup : hasAdjacentDup p = true)
    (hraw : containsS (lowerS p) (lowerS n) = false)
    (hded : containsS (remove_duplicate_chars (lowerS p)) (lowerS n) = true) :
    fuzzy_match p n = true := by
  unfold fuzzy_match
  simp only [hraw, hded, Bool.false_eq_true, if_false, if_true]

theorem C7_witness :
    hasAdjacentDup ("aabcc".toList) = true
    ∧ containsS (lowerS ("aabcc".toList)) (lowerS ("xabcy".toList)) = false
    ∧ containsS (remove_duplicate_chars (lowerS ("aabcc".toList)))
        (lowerS ("xabcy".toList)) = true
    ∧ fuzzy_match ("aabcc".toList) ("xabcy".toList) = true :=
  ⟨by decide, by decide, by decide,
   C7_dedupe_substring_matches ("aabcc".toList) ("xabcy".toList)
     (by decide) (by decide) (by decide)⟩

/-- C6: when the exact-substring and deduplicated-substring steps both
fail and the pattern is longer than 3 characters, `_fuzzy_match` succeeds
exactly when some window of the candidate of the pattern's length agrees
with the pattern in at least 80% of its positions (compared lower-cased);
and when the pattern is longer than the candidate there are no windows,
so the outcome is failure. -/
theorem C6_windowed_similarity (p n : Str)
    (h1 : containsS (lowerS p) (lowerS n) = false)
    (h2 : containsS (remove_duplicate_chars (lowerS p)) (lowerS n) = false)
    (h3 : 3 < p.length) :
    (fuzzy_match p n = true ↔
      ∃ i, i + p.length ≤ n.length ∧
        4 * p.length ≤ 5 * countEq (lowerS p) (((lowerS n).drop i).take p.length))
    ∧ (n.length < p.length → fuzzy_match p n = false) := by
  have hlp : (lowerS p).length = p.length := List.length_map _ _
  have hln : (lowerS n).length = n.length := List.length_map _ _
  have hfm : fuzzy_match p n = similarity_match (lowerS p) (lowerS n) := by
    unfold fuzzy_match
    simp only [h1, h2, Bool.false_eq_true, if_false, hlp, if_pos h3]
  constructor
  · rw [hfm, similarity_match_iff, hlp, hln]
  · intro hlen
    rw [hfm]
    unfold similarity_match
    rw [if_neg (by omega)]

theorem C6_witness :
    (containsS (lowerS ("abcde".toList)) (lowerS ("abcdx".toList)) = false
     ∧ 3 < ("abcde".toList).length
     ∧ fuzzy_match ("abcde".toList) ("abcdx".toList) = true)
    ∧ fuzzy_match ("abcde".toList) ("abc".toList) = false :=
  ⟨⟨by decide, by decide,
    (C6_windowed_similarity ("abcde".toList) ("abcdx".toList)
      (by decide) (by decide) (by decide)).1.mpr ⟨0, by decide, by decide⟩⟩,
   (C6_windowed_similarity ("abcde".toList) ("abc".toList)
      (by decide) (by decide) (by decide)).2 (by decide)⟩

/-- C2 counterexample: a folder entry under a folders query with every
other signal off scores 15, not 10 — the folders-wanted kind bonus is
+15, so the claim's "+10 in both kind-match cases" is false. -/
theorem C2_counterexample :
    calculate_relevance cfg0 qFold eFold = 15
    ∧ calculate_relevance cfg0 qFold eFold ≠ 10 := by
  have h : calculate_relevance cfg0 qFold eFold = 15 := by
    rw [calculate_relevance]
    rw [show kindBonus qFold.search_type eFold.isDir = 15 from by
      rw [kindBonus, if_pos ⟨rfl, rfl⟩]]
    rw [show exactBonus (lowerS qFold.filename) (lowerS eFold.name) = 0 from by
      rw [exactBonus, if_neg (by decide)]]
    rw [show partialBonus (lowerS qFold.filename) (lowerS eFold.name) = 0 from by
      rw [partialBonus, if_neg (by decide)]]
    rw [show extBonus qFold (lowerS eFold.name) eFold.isDir = 0 from by
      rw [extBonus, if_neg (by decide)]]
    rw [show priorityBonus cfg0 eFold.pathStr = 0 from by
      rw [priorityBonus, if_neg (by decide)]]
    norm_num [recencyBonus, sizeBonus, eFold, cfg0]
  exact ⟨h, by rw [h]; norm_num⟩

/-- C2 amended: the score decomposes as the kind bonus plus the remaining
signals, and the kind bonus is +10 for a file under a files query but +15
for a folder under a folders query. -/
theorem C2_kind_bonus_amended (cfg : SearchCfg) (q : Query) (e : Entry) :
    calculate_relevance cfg q e
      = kindBonus q.search_type e.isDir
        + (exactBonus (lowerS q.filename) (lowerS e.name)
           + partialBonus (lowerS q.filename) (lowerS e.name)
           + extBonus q (lowerS e.name) e.isDir
           + priorityBonus cfg e.pathStr
           + recencyBonus e.stat
           + sizeBonus cfg e.name e.isDir e.stat)
    ∧ (q.search_type = SType.files ∧ e.isDir = false →
        kindBonus q.search_type e.isDir = 10)
    ∧ (q.search_type = SType.folders ∧ e.isDir = true →
        kindBonus q.search_type e.isDir = 15) := by
  refine ⟨?_, ?_, ?_⟩
  · unfold calculate_relevance; ring
  · rintro ⟨h1, h2⟩; simp [kindBonus, h1, h2]
  · rintro ⟨h1, h2⟩; simp [kindBonus, h1, h2]

theorem C2_witness :
    kindBonus qFiles.search_type eFile.isDir = 10
    ∧ kindBonus qFold.search_type eFold.isDir = 15 :=
  ⟨(C2_kind_bonus_amended cfg0 qFiles eFile).2.1 ⟨rfl, rfl⟩,
   (C2_kind_bonus_amended cfg0 qFold eFold).2.2 ⟨rfl, rfl⟩⟩

/-! ## Cap invariants of the traversal -/

theorem collectDirsD_bound (ctx : Ctx) (cur : Str) :
    ∀ (ds : Dirs) (acc : List Entry), acc.length < MAX_SEARCH_RESULTS →
      (collectDirsD ctx cur ds acc).1.length ≤ MAX_SEARCH_RESULTS
      ∧ ((collectDirsD ctx cur ds acc).2 = false →
          (collectDirsD ctx cur ds acc).1.length < MAX_SEARCH_RESULTS) := by
  intro ds
  induction ds with
  | nil => intro acc h; exact ⟨Nat.le_of_lt h, fun _ => h⟩
  | cons nm pres rd st cs cf rest ihcs ihrest =>
    intro acc h
    simp only [collectDirsD]
    by_cases hm : (matches_criteria nm ctx.pattern [] true && pres) = true
    · rw [if_pos hm]
      by_cases hc : MAX_SEARCH_RESULTS ≤ (acc ++ [dirEntry cur nm st]).length
      · rw [if_pos hc]
        have hl : (acc ++ [dirEntry cur nm st]).length = acc.length + 1 := by simp
        exact ⟨by simp only; omega, fun hf => by simp at hf⟩
      · rw [if_neg hc]
        exact ihrest (acc ++ [dirEntry cur nm st]) (by omega)
    · rw [if_neg hm]; exact ihrest acc h

theorem collectFilesD_bound (ctx : Ctx) (cur : Str) :
    ∀ (fs : List FSFile) (acc : List Entry), acc.length < MAX_SEARCH_RESULTS →
      (collectFilesD ctx cur fs acc).1.length ≤ MAX_SEARCH_RESULTS
      ∧ ((collectFilesD ctx cur fs acc).2 = false →
          (collectFilesD ctx cur fs acc).1.length < MAX_SEARCH_RESULTS) := by
  intro fs
  induction fs with
  | nil => intro acc h; exact ⟨Nat.le_of_lt h, fun _ => h⟩
  | cons f rest ih =>
    intro acc h
    simp only [collectFilesD]
    by_cases hm : (matches_criteria f.name ctx.pattern ctx.file_type false && f.present) = true
    · rw [if_pos hm]
      by_cases hc : MAX_SEARCH_RESULTS ≤ (acc ++ [fileEntry cur f.name f.stat]).length
      · rw [if_pos hc]
        have hl : (acc ++ [fileEntry cur f.name f.stat]).length = acc.length + 1 := by simp
        exact ⟨by simp only; omega, fun hf => by simp at hf⟩
      · rw [if_neg hc]
        exact ih (acc ++ [fileEntry cur f.name f.stat]) (by omega)
    · rw [if_neg hm]; exact ih acc h

theorem walkF_bound : ∀ fuel : Nat,
    (∀ (ctx : Ctx) (cur : Str) (subs : Dirs) (files : List FSFile) (acc : List Entry),
      acc.length < MAX_SEARCH_RESULTS →
        (walkNodeF fuel ctx cur subs files acc).1.length ≤ MAX_SEARCH_RESULTS
        ∧ ((walkNodeF fuel ctx cur subs files acc).2 = false →
            (walkNodeF fuel ctx cur subs files acc).1.length < MAX_SEARCH_RESULTS))
    ∧ (∀ (ctx : Ctx) (cur : Str) (ds : Dirs) (acc : List Entry),
      acc.length < MAX_SEARCH_RESULTS →
        (walkChildrenF fuel ctx cur ds acc).1.length ≤ MAX_SEARCH_RESULTS
        ∧ ((walkChildrenF fuel ctx cur ds acc).2 = false →
            (walkChildrenF fuel ctx cur ds acc).1.length < MAX_SEARCH_RESULTS)) := by
  intro fuel
  induction fuel with
  | zero =>
    constructor
    · intro ctx cur subs files acc h; exact ⟨Nat.le_of_lt h, fun _ => h⟩
    · intro ctx cur ds acc h; exact ⟨Nat.le_of_lt h, fun _ => h⟩
  | succ fuel ih =>
    obtain ⟨ihN, ihC⟩ := ih
    constructor
    · intro ctx cur subs files acc h
      simp only [walkNodeF]
      set p1 := (if ctx.search_type = SType.folders ∨ ctx.search_type = SType.both then
          collectDirsD ctx cur subs acc else (acc, false)) with hp1def
      have hb1 : p1.1.length ≤ MAX_SEARCH_RESULTS
          ∧ (p1.2 = false → p1.1.length < MAX_SEARCH_RESULTS) := by
        rw [hp1def]
        by_cases hd : ctx.search_type = SType.folders ∨ ctx.search_type = SType.both
        · rw [if_pos hd]; exact collectDirsD_bound ctx cur subs acc h
        · rw [if_neg hd]; exact ⟨Nat.le_of_lt h, fun _ => h⟩
      by_cases hs1 : p1.2 = true
      · rw [if_pos hs1]
        exact ⟨hb1.1, fun hf => by rw [hf] at hs1; exact absurd hs1 (by simp)⟩
      · rw [if_neg hs1]
        have hlt1 : p1.1.length < MAX_SEARCH_RESULTS :=
          hb1.2 (Bool.not_eq_true _ ▸ hs1)
        set p2 := (if ctx.search_type = SType.files ∨ ctx.search_type = SType.both then
            collectFilesD ctx cur files p1.1 else (p1.1, false)) with hp2def
        have hb2 : p2.1.length ≤ MAX_SEARCH_RESULTS
            ∧ (p2.2 = false → p2.1.length < MAX_SEARCH_RESULTS) := by
          rw [hp2def]
          by_cases hf2 : ctx.search_type = SType.files ∨ ctx.search_type = SType.both
          · rw [if_pos hf2]; exact collectFilesD_bound ctx cur files p1.1 hlt1
          · rw [if_neg hf2]; exact ⟨Nat.le_of_lt hlt1, fun _ => hlt1⟩
        by_cases hs2 : p2.2 = true
        · rw [if_pos hs2]
          exact ⟨hb2.1, fun hf => by rw [hf] at hs2; exact absurd hs2 (by simp)⟩
        · rw [if_neg hs2]
          exact ihC ctx cur (pruneD ctx.appdata subs) p2.1 (hb2.2 (Bool.not_eq_true _ ▸ hs2))
    · intro ctx cur ds acc h
      rcases ds with _ | ⟨nm, pres, rd, st, csubs, cfiles, rest⟩
      · simp only [walkChildrenF]; exact ⟨Nat.le_of_lt h, fun _ => h⟩
      · simp only [walkChildrenF]
        set r := (if rd = true then walkNodeF fuel ctx (joinPath cur nm) csubs cfiles acc
            else (acc, false)) with hrdef
        have hbr : r.1.length ≤ MAX_SEARCH_RESULTS
            ∧ (r.2 = false → r.1.length < MAX_SEARCH_RESULTS) := by
          rw [hrdef]
          by_cases hrd : rd = true
          · rw [if_pos hrd]; exact ihN ctx (joinPath cur nm) csubs cfiles acc h
          · rw [if_neg hrd]; exact ⟨Nat.le_of_lt h, fun _ => h⟩
        by_cases hsr : r.2 = true
        · rw [if_pos hsr]
          exact ⟨hbr.1, fun hf => by rw [hf] at hsr; exact absurd hsr (by simp)⟩
        · rw [if_neg hsr]
          exact ihC ctx cur rest r.1 (hbr.2 (Bool.not_eq_true _ ▸ hsr))

theorem search_in_directory_bound (q : Query) (r : Root) (acc : List Entry)
    (h : acc.length < MAX_SEARCH_RESULTS) :
    (search_in_directory q r acc).1.length ≤ MAX_SEARCH_RESULTS := by
  rw [search_in_directory]
  by_cases hr : r.readable = true
  · rw [if_pos hr]
    exact ((walkF_bound _).1 _ _ _ _ _ h).1
  · rw [if_neg hr]; exact Nat.le_of_lt h

theorem searchLoop_bound (q : Query) :
    ∀ (roots : List Root) (acc : List Entry), acc.length < MAX_SEARCH_RESULTS →
      (searchLoop q roots acc).length ≤ MAX_SEARCH_RESULTS := by
  intro roots
  induction roots with
  | nil => intro acc h; exact Nat.le_of_lt h
  | cons r rest ih =>
    intro acc h
    simp only [searchLoop]
    by_cases hc : MAX_SEARCH_RESULTS ≤ (search_in_directory q r acc).1.length
    · rw [if_pos hc]; exact search_in_directory_bound q r acc h
    · rw [if_neg hc]; exact ih _ (by omega)

theorem insertDesc_length (key : Entry → ℚ) (e : Entry) :
    ∀ l : List Entry, (insertDesc key e l).length = l.length + 1 := by
  intro l
  induction l with
  | nil => rfl
  | cons x xs ih =>
    simp only [insertDesc]
    by_cases hc : key e < key x
    · rw [if_pos hc]; simp [ih]
    · rw [if_neg hc]; simp

theorem sortDesc_length (key : Entry → ℚ) :
    ∀ l : List Entry, (sortDesc key l).length = l.length := by
  intro l
  induction l with
  | nil => rfl
  | cons x xs ih => simp only [sortDesc]; rw [insertDesc_length, ih]; rfl

/-- C3: the public operation returns at most `MAX_DISPLAY_RESULTS = 20`
entries, the internal accumulator holds at most `MAX_SEARCH_RESULTS = 50`
entries at the end of collection, and every traversal step entered with
fewer than 50 collected entries leaves at most 50 — so the accumulator
never exceeds 50 at any point of the walk. -/
theorem C3_result_caps (cfg : SearchCfg) (q : Query) (roots : List Root) :
    (search_files cfg q roots).length ≤ MAX_DISPLAY_RESULTS
    ∧ (searchCollect q roots).length ≤ MAX_SEARCH_RESULTS
    ∧ (∀ (fuel : Nat) (ctx : Ctx) (cur : Str) (subs : Dirs) (files : List FSFile)
        (acc : List Entry), acc.length < MAX_SEARCH_RESULTS →
        (walkNodeF fuel ctx cur subs files acc).1.length ≤ MAX_SEARCH_RESULTS) := by
  refine ⟨?_, ?_, ?_⟩
  · rw [search_files]
    exact List.length_take_le _ _
  · exact searchLoop_bound q roots [] (by simp [MAX_SEARCH_RESULTS])
  · intro fuel ctx cur subs files acc h
    exact ((walkF_bound fuel).1 ctx cur subs files acc h).1

theorem C3_witness :
    ([] : List Entry).length < MAX_SEARCH_RESULTS
    ∧ (walkNodeF 3 (mkCtx q1 appRoot1.path) appRoot1.path appTree1 [] []).1.length
        ≤ MAX_SEARCH_RESULTS :=
  ⟨by decide,
   (C3_result_caps cfg0 q1 [appRoot1]).2.2 3 (mkCtx q1 appRoot1.path) appRoot1.path
     appTree1 [] [] (by decide)⟩

/-! ## Totality and error handling of the search -/

theorem search_in_directory_unreadable (q : Query) (r : Root) (acc : List Entry)
    (h : r.readable = false) : search_in_directory q r acc = (acc, false) := by
  rw [search_in_directory, if_neg (by simp [h])]

theorem searchLoop_filter_readable (q : Query) :
    ∀ (roots : List Root) (acc : List Entry), acc.length < MAX_SEARCH_RESULTS →
      searchLoop q (roots.filter fun r => r.readable) acc = searchLoop q roots acc := by
  intro roots
  induction roots with
  | nil => intro acc _; rfl
  | cons r rest ih =>
    intro acc h
    by_cases hr : r.readable = true
    · rw [List.filter_cons_of_pos (by simp [hr])]
      simp only [searchLoop]
      by_cases hc : MAX_SEARCH_RESULTS ≤ (search_in_directory q r acc).1.length
      · rw [if_pos hc, if_pos hc]
      · rw [if_neg hc, if_neg hc]
        exact ih _ (by omega)
    · rw [List.filter_cons_of_neg (by simp [hr])]
      have hr' : r.readable = false := by
        rcases hb : r.readable with _ | _
        · rfl
        · exact absurd hb hr
      conv_rhs => rw [searchLoop]
      rw [search_in_directory_unreadable q r acc hr']
      rw [if_neg (show ¬ MAX_SEARCH_RESULTS ≤ ((acc, false).1 : List Entry).length by
        show ¬ MAX_SEARCH_RESULTS ≤ acc.length
        omega)]
      exact ih acc h

/-! ## Excluded subtrees are never descended into -/

theorem collectDirsD_scrub (bad : Str → Bool) (ctx : Ctx) (cur : Str) :
    ∀ (ds : Dirs) (acc : List Entry),
      collectDirsD ctx cur (scrubBy bad ds) acc = collectDirsD ctx cur ds acc := by
  intro ds
  induction ds with
  | nil => intro acc; rfl
  | cons nm pres rd st cs cf rest ihcs ihrest =>
    intro acc
    by_cases hb : bad nm = true
    · simp only [scrubBy]
      rw [if_pos hb]
      simp only [collectDirsD]
      by_cases hm : (matches_criteria nm ctx.pattern [] true && pres) = true
      · rw [if_pos hm, if_pos hm]
        by_cases hc : MAX_SEARCH_RESULTS ≤ (acc ++ [dirEntry cur nm st]).length
        · rw [if_pos hc, if_pos hc]
        · rw [if_neg hc, if_neg hc]; exact ihrest _
      · rw [if_neg hm, if_neg hm]; exact ihrest _
    · simp only [scrubBy]
      rw [if_neg hb]
      simp only [collectDirsD]
      by_cases hm : (matches_criteria nm ctx.pattern [] true && pres) = true
      · rw [if_pos hm, if_pos hm]
        by_cases hc : MAX_SEARCH_RESULTS ≤ (acc ++ [dirEntry cur nm st]).length
        · rw [if_pos hc, if_pos hc]
        · rw [if_neg hc, if_neg hc]; exact ihrest _
      · rw [if_neg hm, if_neg hm]; exact ihrest _

theorem filterD_scrubBy (bad p : Str → Bool) (hp : ∀ nm, bad nm = true → p nm = false) :
    ∀ ds : Dirs, filterD p (scrubBy bad ds) = scrubBy bad (filterD p ds) := by
  intro ds
  induction ds with
  | nil => rfl
  | cons nm pres rd st cs cf rest ihcs ihrest =>
    by_cases hb : bad nm = true
    · simp only [scrubBy]
      rw [if_pos hb]
      simp only [filterD]
      rw [if_neg (by rw [hp nm hb]; simp), if_neg (by rw [hp nm hb]; simp)]
      exact ihrest
    · simp only [scrubBy]
      rw [if_neg hb]
      simp only [filterD]
      by_cases hpn : p nm = true
      · rw [if_pos hpn, if_pos hpn]
        simp only [scrubBy]
        rw [if_neg hb, ihrest]
      · rw [if_neg hpn, if_neg hpn]; exact ihrest

theorem goodTops_filterD (bad p : Str → Bool) (hp : ∀ nm, bad nm = true → p nm = false) :
    ∀ ds : Dirs, goodTops bad (filterD p ds) = true := by
  intro ds
  induction ds with
  | nil => rfl
  | cons nm pres rd st cs cf rest ihcs ihrest =>
    simp only [filterD]
    by_cases hpn : p nm = true
    · rw [if_pos hpn]
      have hbn : bad nm = false := by
        rcases hb : bad nm with _ | _
        · rfl
        · rw [hp nm hb] at hpn; cases hpn
      simp only [goodTops]
      simp [hbn, ihrest]
    · rw [if_neg hpn]; exact ihrest

theorem goodTops_filterD_mono (bad p : Str → Bool) :
    ∀ ds : Dirs, goodTops bad ds = true → goodTops bad (filterD p ds) = true := by
  intro ds
  induction ds with
  | nil => intro _; rfl
  | cons nm pres rd st cs cf rest ihcs ihrest =>
    intro h
    simp only [goodTops, Bool.and_eq_true, Bool.not_eq_true'] at h
    simp only [filterD]
    by_cases hpn : p nm = true
    · rw [if_pos hpn]
      simp only [goodTops]
      simp [h.1, ihrest h.2]
    · rw [if_neg hpn]; exact ihrest h.2

theorem filterD_scrubBy_good (bad p : Str → Bool) :
    ∀ ds : Dirs, goodTops bad ds = true →
      filterD p (scrubBy bad ds) = scrubBy bad (filterD p ds) := by
  intro ds
  induction ds with
  | nil => intro _; rfl
  | cons nm pres rd st cs cf rest ihcs ihrest =>
    intro h
    simp only [goodTops, Bool.and_eq_true, Bool.not_eq_true'] at h
    simp only [scrubBy]
    rw [if_neg (by simp [h.1])]
    simp only [filterD]
    by_cases hpn : p nm = true
    · rw [if_pos hpn, if_pos hpn]
      simp only [scrubBy]
      rw [if_neg (by simp [h.1]), ihrest h.2]
    · rw [if_neg hpn, if_neg hpn]; exact ihrest h.2

theorem pruneD_scrubBy (bad : Str → Bool)
    (hfull : ∀ nm, bad nm = true → keepFull nm = false) (a : Bool) (ds : Dirs) :
    pruneD a (scrubBy bad ds) = scrubBy bad (pruneD a ds)
    ∧ goodTops bad (pruneD a ds) = true := by
  have h1 : filterD keepFull (scrubBy bad ds) = scrubBy bad (filterD keepFull ds) :=
    filterD_scrubBy bad keepFull hfull ds
  have hg1 : goodTops bad (filterD keepFull ds) = true :=
    goodTops_filterD bad keepFull hfull ds
  simp only [pruneD]
  by_cases ha : a = true
  · rw [if_pos ha, if_pos ha]
    constructor
    · rw [h1, filterD_scrubBy_good bad keepNarrow _ hg1]
    · exact goodTops_filterD_mono bad keepNarrow _ hg1
  · rw [if_neg ha, if_neg ha]
    exact ⟨h1, hg1⟩

theorem walkF_scrub (bad : Str → Bool)
    (hfull : ∀ nm, bad nm = true → keepFull nm = false) :
    ∀ fuel : Nat,
      (∀ (ctx : Ctx) (cur : Str) (subs : Dirs) (files : List FSFile) (acc : List Entry),
        walkNodeF fuel ctx cur (scrubBy bad subs) files acc
          = walkNodeF fuel ctx cur subs files acc)
      ∧ (∀ (ctx : Ctx) (cur : Str) (ds : Dirs), goodTops bad ds = true →
          ∀ acc : List Entry,
            walkChildrenF fuel ctx cur (scrubBy bad ds) acc
              = walkChildrenF fuel ctx cur ds acc) := by
  intro fuel
  induction fuel with
  | zero => exact ⟨fun _ _ _ _ _ => rfl, fun _ _ _ _ _ => rfl⟩
  | succ fuel ih =>
    obtain ⟨ihN, ihC⟩ := ih
    constructor
    · intro ctx cur subs files acc
      simp only [walkNodeF]
      rw [collectDirsD_scrub bad ctx cur subs acc]
      rw [(pruneD_scrubBy bad hfull ctx.appdata subs).1]
      rw [ihC ctx cur (pruneD ctx.appdata subs) (pruneD_scrubBy bad hfull ctx.appdata subs).2]
    · intro ctx cur ds hgood acc
      rcases ds with _ | ⟨nm, pres, rd, st, csubs, cfiles, rest⟩
      · rfl
      · simp only [goodTops, Bool.and_eq_true, Bool.not_eq_true'] at hgood
        simp only [scrubBy]
        rw [if_neg (by simp [hgood.1])]
        simp only [walkChildrenF]
        rw [ihN ctx (joinPath cur nm) csubs cfiles acc]
        rw [ihC ctx cur rest hgood.2]

theorem startsDot_keepFull (nm : Str) (h : startsDot nm = true) : keepFull nm = false := by
  unfold keepFull
  rw [show decide (nm.head? = some '.') = true from h]
  rfl

theorem isExcludedName_keepFull (nm : Str) (h : isExcludedName nm = true) :
    keepFull nm = false := by
  unfold keepFull
  rw [show excluded_full.contains nm = true from h]
  simp

/-- C9: the walk never descends into a child directory whose name begins
with a dot — emptying the contents of every dot-named directory changes
nothing, for *every* context, including those with the appdata flag set —
yet a dot-named directory itself can be matched and returned as a folder
result, as the concrete `.git` search shows, while the uniquely named
file inside it is not returned. -/
theorem C9_dot_directories_never_descended :
    (∀ (fuel : Nat) (ctx : Ctx) (cur : Str) (subs : Dirs) (files : List FSFile)
      (acc : List Entry),
      walkNodeF fuel ctx cur (scrubBy startsDot subs) files acc
        = walkNodeF fuel ctx cur subs files acc)
    ∧ search_files cfg0 qGit [gitRoot1]
        = [⟨("c:\\.git".toList), (".git".toList), true, none⟩] := by
  constructor
  · intro fuel ctx cur subs files acc
    exact (walkF_scrub startsDot startsDot_keepFull fuel).1 ctx cur subs files acc
  · decide

/-- C1 (code bug): the fixed exclusion set applies to *every* walk,
whether or not the scan root lies inside the appdata cache directory:
emptying every excluded-name subtree never changes any walk, for every
context including `appdata = true`.  Concretely, searching for the unique
file inside `Windows` under a scan root whose path contains `appdata`
still returns nothing, although the source's comment says this case
should be allowed: the narrow filter is applied to the already fully
filtered list, so the exception is dead code. -/
theorem C1_appdata_exception_never_fires :
    (∀ (fuel : Nat) (ctx : Ctx) (cur : Str) (subs : Dirs) (files : List FSFile)
      (acc : List Entry),
      walkNodeF fuel ctx cur (scrubBy isExcludedName subs) files acc
        = walkNodeF fuel ctx cur subs files acc)
    ∧ search_files cfg0 q1 [appRoot1] = [] := by
  constructor
  · intro fuel ctx cur subs files acc
    exact (walkF_scrub isExcludedName isExcludedName_keepFull fuel).1 ctx cur subs files acc
  · decide

/-- C4: the search is total on every reachable filesystem state — an
empty root set yields the empty list, unreadable roots contribute nothing
while the remaining roots are still searched (so the result equals the
search over the readable roots alone), and a failed `stat` during scoring
omits exactly the recency and size signals while scoring still
completes. -/
theorem C4_total_error_handling (cfg : SearchCfg) (q : Query) (roots : List Root) :
    search_files cfg q (roots.filter fun r => r.readable) = search_files cfg q roots
    ∧ search_files cfg q [] = []
    ∧ (∀ (p nm : Str) (d : Bool) (s : Stat),
        calculate_relevance cfg q ⟨p, nm, d, some s⟩
          = calculate_relevance cfg q ⟨p, nm, d, none⟩
            + recencyBonus (some s) + sizeBonus cfg nm d (some s)) := by
  refine ⟨?_, rfl, ?_⟩
  · rw [search_files, search_files, searchCollect, searchCollect,
      searchLoop_filter_readable q roots [] (by simp [MAX_SEARCH_RESULTS])]
  · intro p nm d s
    simp only [calculate_relevance]
    have h0 : recencyBonus none = 0 := rfl
    have h1 : sizeBonus cfg nm d none = 0 := rfl
    rw [h0, h1]
    ring

/-! ## Signal decomposition and monotonicity -/

theorem exactBonus_eq (sf fn : Str) :
    exactBonus sf fn = (if decide (sf ≠ [] ∧ sf = fn) = true then (10 : ℚ) else 0) := by
  unfold exactBonus
  by_cases h : sf ≠ [] ∧ sf = fn
  · rw [if_pos h, if_pos (by simpa using h)]
  · rw [if_neg h, if_neg (by simpa using h)]

theorem partialBonus_eq (sf fn : Str) :
    partialBonus sf fn
      = (if (decide (sf ≠ []) && containsS sf fn) = true then (5 : ℚ) else 0)
        + (if ((decide (sf ≠ []) && containsS sf fn) = true
              ∧ decide (sf <+: fn) = true) then (2 : ℚ) else 0) := by
  unfold partialBonus
  by_cases h1 : sf = []
  · subst h1
    rw [if_neg (by simp), if_neg (by simp), if_neg (by simp)]
    norm_num
  · by_cases h2 : containsS sf fn = true
    · have hA : (decide (sf ≠ []) && containsS sf fn) = true := by simp [h1, h2]
      rw [if_pos ⟨h1, h2⟩, if_pos hA]
      by_cases h3 : sf <+: fn
      · rw [if_pos (by simpa using h3), if_pos ⟨hA, by simpa using h3⟩]
      · rw [if_neg (by simpa using h3), if_neg (by simp [h3])]
    · rw [if_neg (fun h => h2 h.2), if_neg (by simp [h2]),
        if_neg (by simp [h2])]
      norm_num

theorem extBonus_eq (q : Query) (fn : Str) (d : Bool) :
    extBonus q fn d
      = (if decide (d = false ∧ q.file_type ≠ [] ∧ ('.' :: q.file_type) <:+ fn) = true
         then (3 : ℚ) else 0) := by
  unfold extBonus
  by_cases h : d = false ∧ q.file_type ≠ [] ∧ ('.' :: q.file_type) <:+ fn
  · rw [if_pos (by simpa using h), if_pos (by simpa using h)]
  · rw [if_neg (by simpa using h), if_neg (by simpa using h)]

theorem priorityBonus_eq (cfg : SearchCfg) (ps : Str) :
    priorityBonus cfg ps
      = (if (cfg.priority_paths.any fun pp => decide (lowerS pp <+: lowerS ps)) = true
         then (2 : ℚ) else 0) := rfl

theorem calculate_relevance_eq_scoreOf (cfg : SearchCfg) (q : Query) (e : Entry) :
    calculate_relevance cfg q e = scoreOf (extract cfg q e) := by
  rw [calculate_relevance, scoreOf]
  simp only [extract]
  rw [exactBonus_eq, partialBonus_eq, extBonus_eq, priorityBonus_eq]
  ring

/-- C8: the score is purely additive — it equals `scoreOf` applied to the
entry's signal vector — and `scoreOf` strictly increases when any single
positive-weight signal is turned on with all other signals unchanged:
exact name match, start-of-name match (given the substring signal), file
type match, priority location, any recency tier, either size-heuristic
value, and any kind bonus. -/
theorem C8_additive_monotone (cfg : SearchCfg) (q : Query) (e : Entry) :
    calculate_relevance cfg q e = scoreOf (extract cfg q e)
    ∧ (∀ s : Signals, s.exactS = false → scoreOf s < scoreOf { s with exactS := true })
    ∧ (∀ s : Signals, s.substrS = true → s.startS = false →
        scoreOf s < scoreOf { s with startS := true })
    ∧ (∀ s : Signals, s.extS = false → scoreOf s < scoreOf { s with extS := true })
    ∧ (∀ s : Signals, s.prioS = false → scoreOf s < scoreOf { s with prioS := true })
    ∧ (∀ (s : Signals) (t : ℚ), s.recB = 0 → (t = 1 / 2 ∨ t = 1 ∨ t = 2) →
        scoreOf s < scoreOf { s with recB := t })
    ∧ (∀ (s : Signals) (t : ℚ), s.sizeB = 0 → (t = 1 / 10 ∨ t = 1 / 2) →
        scoreOf s < scoreOf { s with sizeB := t })
    ∧ (∀ (s : Signals) (t : ℚ), s.kindB = 0 → (t = 8 ∨ t = 10 ∨ t = 15) →
        scoreOf s < scoreOf { s with kindB := t }) := by
  refine ⟨calculate_relevance_eq_scoreOf cfg q e, ?_, ?_, ?_, ?_, ?_, ?_, ?_⟩
  · rintro ⟨k, ex, sub, st, exs, pr, r, sz⟩ h
    subst h
    simp only [scoreOf]
    simp only [Bool.false_eq_true, if_false, if_true]
    linarith
  · rintro ⟨k, ex, sub, st, exs, pr, r, sz⟩ h1 h2
    subst h1; subst h2
    simp only [scoreOf]
    norm_num
  · rintro ⟨k, ex, sub, st, exs, pr, r, sz⟩ h
    subst h
    simp only [scoreOf]
    simp only [Bool.false_eq_true, if_false, if_true]
    linarith
  · rintro ⟨k, ex, sub, st, exs, pr, r, sz⟩ h
    subst h
    simp only [scoreOf]
    simp only [Bool.false_eq_true, if_false, if_true]
    linarith
  · rintro ⟨k, ex, sub, st, exs, pr, r, sz⟩ t h ht
    subst h
    simp only [scoreOf]
    rcases ht with h | h | h <;> subst h <;> linarith
  · rintro ⟨k, ex, sub, st, exs, pr, r, sz⟩ t h ht
    subst h
    simp only [scoreOf]
    rcases ht with h | h <;> subst h <;> linarith
  · rintro ⟨k, ex, sub, st, exs, pr, r, sz⟩ t h ht
    subst h
    simp only [scoreOf]
    rcases ht with h | h | h <;> subst h <;> linarith

theorem C8_witness :
    calculate_relevance cfg0 qFold eFold = scoreOf (extract cfg0 qFold eFold)
    ∧ ((⟨0, false, true, false, false, false, 0, 0⟩ : Signals).exactS = false
       ∧ scoreOf ⟨0, false, true, false, false, false, 0, 0⟩
           < scoreOf { (⟨0, false, true, false, false, false, 0, 0⟩ : Signals) with
               exactS := true })
    ∧ ((⟨0, false, true, false, false, false, 0, 0⟩ : Signals).extS = false
       ∧ scoreOf ⟨0, false, true, false, false, false, 0, 0⟩
           < scoreOf { (⟨0, false, true, false, false, false, 0, 0⟩ : Signals) with
               extS := true })
    ∧ ((⟨0, false, true, false, false, false, 0, 0⟩ : Signals).recB = 0
       ∧ scoreOf ⟨0, false, true, false, false, false, 0, 0⟩
           < scoreOf { (⟨0, false, true, false, false, false, 0, 0⟩ : Signals) with
               recB := 2 }) :=
  ⟨(C8_additive_monotone cfg0 qFold eFold).1,
   ⟨rfl, (C8_additive_monotone cfg0 qFold eFold).2.1 _ rfl⟩,
   ⟨rfl, (C8_additive_monotone cfg0 qFold eFold).2.2.2.1 _ rfl⟩,
   ⟨rfl, (C8_additive_monotone cfg0 qFold eFold).2.2.2.2.2.1 _ 2 rfl
     (Or.inr (Or.inr rfl))⟩⟩

/-! ## The spinner's stop/join behaviour -/

/-- C5 counterexample: because `stop()` waits with
`thread.join(timeout=0.5)`, there is an execution in which `stop()`
returns (the join timing out) while the reporter thread has neither
finished nor cleared the line, the caller prints, and only afterwards the
reporter writes its clearing output — the caller's print interleaves with
the stale animation state, which the claim says can never happen. -/
theorem C5_counterexample :
    (Spinner.Reach ⟨false, Spinner.RPC.checkBusy, Spinner.MPC.printed, true,
        [Spinner.Ev.userPrint]⟩
      ∧ Spinner.RPC.checkBusy ≠ Spinner.RPC.done)
    ∧ Spinner.Reach ⟨false, Spinner.RPC.done, Spinner.MPC.printed, true,
        [Spinner.Ev.userPrint, Spinner.Ev.clear]⟩ := by
  have h3 : Spinner.Reach ⟨false, Spinner.RPC.checkBusy, Spinner.MPC.printed, true,
      [Spinner.Ev.userPrint]⟩ :=
    Spinner.Reach.next
      (Spinner.Reach.next
        (Spinner.Reach.next Spinner.Reach.start
          (Spinner.Step.stopCall Spinner.init rfl))
        (Spinner.Step.joinTimeout _ rfl))
      (Spinner.Step.printAfter _ rfl)
  refine ⟨⟨h3, by decide⟩, ?_⟩
  exact Spinner.Reach.next
    (Spinner.Reach.next h3 (Spinner.Step.checkBusyF _ rfl rfl))
    (Spinner.Step.clearW _ rfl)

/-- C5 amended: once `stop()` has returned, either the reporter thread
has finished (and so has written its clearing output), or the 0.5-second
join timeout fired — `stop()` blocks only up to the timeout, not
unconditionally until the final render is cleared. -/
theorem C5_stop_join_amended (s : Spinner.St) (hs : Spinner.Reach s)
    (hmpc : s.mpc = Spinner.MPC.afterStop ∨ s.mpc = Spinner.MPC.printed) :
    s.rpc = Spinner.RPC.done ∨ s.timedOut = true := by
  induction hs with
  | start => rcases hmpc with h | h <;> exact absurd h (by decide)
  | next hr hstep ih =>
    cases hstep with
    | checkBusyT h1 h2 =>
      rcases ih (by exact hmpc) with hd | ht
      · rw [h1] at hd; exact absurd hd (by decide)
      · exact Or.inr ht
    | checkBusyF h1 h2 =>
      rcases ih (by exact hmpc) with hd | ht
      · rw [h1] at hd; exact absurd hd (by decide)
      · exact Or.inr ht
    | frame h1 =>
      rcases ih (by exact hmpc) with hd | ht
      · rw [h1] at hd; exact absurd hd (by decide)
      · exact Or.inr ht
    | wake h1 =>
      rcases ih (by exact hmpc) with hd | ht
      · rw [h1] at hd; exact absurd hd (by decide)
      · exact Or.inr ht
    | clearW h1 => exact Or.inl rfl
    | stopCall h1 =>
      rcases hmpc with h | h <;> exact absurd h (by simp)
    | joinDone h1 h2 => exact Or.inl h2
    | joinTimeout h1 => exact Or.inr rfl
    | printAfter h1 =>
      exact ih (Or.inl h1)

theorem C5_witness :
    (⟨false, Spinner.RPC.done, Spinner.MPC.afterStop, false,
        [Spinner.Ev.clear]⟩ : Spinner.St).rpc = Spinner.RPC.done
    ∨ (⟨false, Spinner.RPC.done, Spinner.MPC.afterStop, false,
        [Spinner.Ev.clear]⟩ : Spinner.St).timedOut = true :=
  C5_stop_join_amended _
    (Spinner.Reach.next
      (Spinner.Reach.next
        (Spinner.Reach.next
          (Spinner.Reach.next Spinner.Reach.start
            (Spinner.Step.stopCall Spinner.init rfl))
          (Spinner.Step.checkBusyF _ rfl rfl))
        (Spinner.Step.clearW _ rfl))
      (Spinner.Step.joinDone _ rfl rfl))
    (Or.inl rfl)
